import Mathlib

/-!
Verification development for the Xplore terminal file browser
(session engine: directory model, session state machine, PTY sync).

The Rust sources are shallowly embedded: pure fragments become Lean
functions; filesystem and OS effects are made explicit, either as an
abstract `OSModel` record of oracles (join / canonicalize / is_dir /
file-name extraction), as input snapshots (the walked subtree for
recursive search, the `/proc` answers for a PTY tick), or as an emitted
trace of filesystem operations (copy / move / rename / xattr writes).
Strings are compared through their character codes, and `to_lowercase`
is modelled as ASCII character lowercasing.
-/

/-- Model of Rust `char` comparison: compare two character codes. -/
def natCmp (a b : Nat) : Ordering :=
  if a < b then .lt else if a = b then .eq else .gt

/-- Lexicographic comparison of character-code lists: the model of Rust
`str::cmp`. -/
def lcmp : List Nat → List Nat → Ordering
  | [], [] => .eq
  | [], _ :: _ => .lt
  | _ :: _, [] => .gt
  | a :: as_, b :: bs =>
    match natCmp a b with
    | .eq => lcmp as_ bs
    | o => o

/-- ASCII lowercasing of one character code: the model of Rust
`to_lowercase` at character level. -/
def lowerNat (n : Nat) : Nat :=
  if 65 ≤ n ∧ n ≤ 90 then n + 32 else n

/-- The lowercased character codes of a string: the model of Rust
`s.to_lowercase()` used wherever the source compares or searches
case-insensitively. -/
def lowerKey (s : String) : List Nat :=
  s.data.map (fun c => lowerNat c.toNat)

/-- Model of Rust `str::contains`: substring as infix of the
character-code list. -/
def containsSub (hay needle : List Nat) : Bool :=
  decide (needle <:+: hay)

/-- Model of Rust `bool` ordering (`false < true`), as used by
`b.is_dir.cmp(&a.is_dir)`. -/
def boolCmp (x y : Bool) : Ordering :=
  if x = y then .eq else if x = false then .lt else .gt

/-- One filesystem node as produced by the Directory Model
(src/filesystem/entry.rs). `mod_time` is an abstract timestamp. -/
structure FileEntry where
  name : String
  path : String
  size : Nat
  is_dir : Bool
  mod_time : Nat
  description : Option String
  permissions : String
  owner : String
  group : String
deriving DecidableEq

/-- The comparator passed to `entries.sort_by` in
`FileSystemManager::list_directory`: `"."` first, then `".."`, then
directories before files, then case-insensitive name order. -/
def entryCmp (a b : FileEntry) : Ordering :=
  if a.name = "." then .lt
  else if b.name = "." then .gt
  else if a.name = ".." then .lt
  else if b.name = ".." then .gt
  else if a.is_dir = b.is_dir then lcmp (lowerKey a.name) (lowerKey b.name)
  else boolCmp b.is_dir a.is_dir

/-- Insert into a sorted list according to a comparator: goes after
every element it compares `gt` against.  Together with `sortByCmp` this
models the stable comparison sort `slice::sort_by`. -/
def insertCmp (cmp : FileEntry → FileEntry → Ordering) (x : FileEntry) :
    List FileEntry → List FileEntry
  | [] => [x]
  | h :: t =>
    if cmp x h = Ordering.gt then h :: insertCmp cmp x t else x :: h :: t

/-- Stable comparison sort (insertion sort), the model of
`slice::sort_by` used by `list_directory`. -/
def sortByCmp (cmp : FileEntry → FileEntry → Ordering)
    (l : List FileEntry) : List FileEntry :=
  l.foldr (insertCmp cmp) []

/-- Per-entry metadata read from the OS when a listing is built
(modification time, rendered permissions, owner, group). -/
structure MetaInfo where
  mod_time : Nat
  permissions : String
  owner : String
  group : String

/-- The synthetic `"."` entry pushed first by `list_directory`. -/
def mkDotEntry (cur : String) (m : MetaInfo) : FileEntry :=
  ⟨".", cur, 0, true, m.mod_time, none, m.permissions, m.owner, m.group⟩

/-- The synthetic `".."` entry pushed when the current directory has a
parent. -/
def mkDotDotEntry (parent : String) (m : MetaInfo) : FileEntry :=
  ⟨"..", parent, 0, true, m.mod_time, none, m.permissions, m.owner, m.group⟩

/-- `FileSystemManager::list_directory`, success path: the synthetic
`"."` entry, the synthetic `".."` entry when the current directory has
a parent, then the entries read from the directory (`reals`), all
sorted with `entryCmp`.  On an I/O failure the Rust function returns
`Err` and produces no listing at all, so the claims about produced
listings concern exactly this construction. -/
def list_directory (cur : String) (parent : Option String)
    (dotMeta ddotMeta : MetaInfo) (reals : List FileEntry) :
    List FileEntry :=
  let base :=
    mkDotEntry cur dotMeta ::
      ((match parent with
        | some p => [mkDotDotEntry p ddotMeta]
        | none => []) ++ reals)
  sortByCmp entryCmp base

/-- Rank of an entry in the specified listing order: `"."` first,
`".."` second, then directories, then files. -/
def specRank (e : FileEntry) : Nat :=
  if e.name = "." then 0
  else if e.name = ".." then 1
  else if e.is_dir then 2 else 3

/-- The ordering the spec claims for listings: by rank, then
case-insensitively by name. -/
def specLe (a b : FileEntry) : Prop :=
  specRank a < specRank b ∨
    (specRank a = specRank b ∧
      lcmp (lowerKey a.name) (lowerKey b.name) ≠ Ordering.gt)

theorem natCmp_lt_iff {a b : Nat} : natCmp a b = .lt ↔ a < b := by
  unfold natCmp; split_ifs <;> simp_all

theorem natCmp_eq_iff {a b : Nat} : natCmp a b = .eq ↔ a = b := by
  unfold natCmp; split_ifs <;> simp_all <;> omega

theorem natCmp_gt_iff {a b : Nat} : natCmp a b = .gt ↔ b < a := by
  unfold natCmp; split_ifs <;> simp_all <;> omega

theorem lcmp_refl (l : List Nat) : lcmp l l = .eq := by
  induction l with
  | nil => rfl
  | cons x xs ih =>
    simp only [lcmp, natCmp_eq_iff.mpr rfl, ih]

theorem lcmp_swap (a b : List Nat) : lcmp b a = (lcmp a b).swap := by
  induction a generalizing b with
  | nil => cases b <;> rfl
  | cons x xs ih =>
    cases b with
    | nil => rfl
    | cons y ys =>
      simp only [lcmp]
      rcases Nat.lt_trichotomy x y with h | h | h
      · rw [natCmp_lt_iff.mpr h, natCmp_gt_iff.mpr h]; rfl
      · rw [natCmp_eq_iff.mpr h, natCmp_eq_iff.mpr h.symm, ih]
      · rw [natCmp_gt_iff.mpr h, natCmp_lt_iff.mpr h]; rfl

theorem lcmp_le_total (a b : List Nat) :
    lcmp a b ≠ .gt ∨ lcmp b a ≠ .gt := by
  rw [lcmp_swap a b]
  cases lcmp a b <;> simp [Ordering.swap]

theorem lcmp_le_trans {a b c : List Nat}
    (h1 : lcmp a b ≠ .gt) (h2 : lcmp b c ≠ .gt) : lcmp a c ≠ .gt := by
  induction a generalizing b c with
  | nil => cases c <;> simp [lcmp]
  | cons x xs ih =>
    cases b with
    | nil => simp [lcmp] at h1
    | cons y ys =>
      cases c with
      | nil => simp [lcmp] at h2
      | cons z zs =>
        simp only [lcmp] at h1 h2 ⊢
        rcases Nat.lt_trichotomy x y with hxy | hxy | hxy
        · rcases Nat.lt_trichotomy y z with hyz | hyz | hyz
          · rw [natCmp_lt_iff.mpr (lt_trans hxy hyz)]; simp
          · rw [natCmp_lt_iff.mpr (hyz ▸ hxy)]; simp
          · rw [natCmp_gt_iff.mpr hyz] at h2; simp at h2
        · subst hxy
          rw [natCmp_eq_iff.mpr rfl] at h1
          rcases Nat.lt_trichotomy x z with hyz | hyz | hyz
          · rw [natCmp_lt_iff.mpr hyz]; simp
          · rw [natCmp_eq_iff.mpr hyz] at h2 ⊢
            exact ih h1 h2
          · rw [natCmp_gt_iff.mpr hyz] at h2; simp at h2
        · rw [natCmp_gt_iff.mpr hxy] at h1; simp at h1

theorem specLe_total (a b : FileEntry) : specLe a b ∨ specLe b a := by
  unfold specLe
  rcases Nat.lt_trichotomy (specRank a) (specRank b) with h | h | h
  · exact Or.inl (Or.inl h)
  · rcases lcmp_le_total (lowerKey a.name) (lowerKey b.name) with hl | hl
    · exact Or.inl (Or.inr ⟨h, hl⟩)
    · exact Or.inr (Or.inr ⟨h.symm, hl⟩)
  · exact Or.inr (Or.inl h)

theorem specLe_trans {a b c : FileEntry}
    (h1 : specLe a b) (h2 : specLe b c) : specLe a c := by
  unfold specLe at h1 h2 ⊢
  rcases h1 with h1 | ⟨h1, h1l⟩
  · rcases h2 with h2 | ⟨h2, _⟩
    · exact Or.inl (lt_trans h1 h2)
    · exact Or.inl (h2 ▸ h1)
  · rcases h2 with h2 | ⟨h2, h2l⟩
    · exact Or.inl (h1 ▸ h2)
    · exact Or.inr ⟨h1.trans h2, lcmp_le_trans h1l h2l⟩

/-- The listing comparator as a "less or equal" relation. -/
def entryLe (a b : FileEntry) : Prop := entryCmp a b ≠ Ordering.gt

theorem specRank_eq_zero_iff {e : FileEntry} :
    specRank e = 0 ↔ e.name = "." := by
  unfold specRank
  split_ifs with h1 h2 h3 <;> simp_all

theorem specRank_eq_one_iff {e : FileEntry} :
    specRank e = 1 ↔ (e.name ≠ "." ∧ e.name = "..") := by
  unfold specRank
  split_ifs with h1 h2 h3 <;> simp_all


theorem specRank_dot {e : FileEntry} (h : e.name = ".") : specRank e = 0 := by
  simp [specRank, h]

theorem specRank_ddot {e : FileEntry} (h1 : e.name ≠ ".")
    (h2 : e.name = "..") : specRank e = 1 := by
  simp [specRank, h1, h2]

theorem specRank_real {e : FileEntry} (h1 : e.name ≠ ".")
    (h2 : e.name ≠ "..") : specRank e = if e.is_dir then 2 else 3 := by
  simp [specRank, h1, h2]

theorem specRank_real_ge {e : FileEntry} (h1 : e.name ≠ ".")
    (h2 : e.name ≠ "..") : 2 ≤ specRank e := by
  rw [specRank_real h1 h2]
  split_ifs <;> omega

theorem entryLe_iff_specLe (a b : FileEntry) :
    entryLe a b ↔ specLe a b := by
  unfold entryLe entryCmp specLe
  by_cases ha1 : a.name = "."
  · by_cases hb1 : b.name = "."
    · rw [specRank_dot ha1, specRank_dot hb1, ha1, hb1]
      simp [lcmp_refl]
    · have hb : 0 < specRank b := by
        rcases Nat.eq_zero_or_pos (specRank b) with h | h
        · exact absurd (specRank_eq_zero_iff.mp h) hb1
        · exact h
      rw [specRank_dot ha1]
      simp only [if_pos ha1]
      constructor
      · intro _; exact Or.inl hb
      · intro _; simp
  · by_cases hb1 : b.name = "."
    · rw [specRank_dot hb1]
      simp only [if_neg ha1, if_pos hb1]
      have ha : 0 < specRank a := by
        rcases Nat.eq_zero_or_pos (specRank a) with h | h
        · exact absurd (specRank_eq_zero_iff.mp h) ha1
        · exact h
      constructor
      · intro h; exact absurd rfl h
      · intro h
        rcases h with h | ⟨h, _⟩ <;> omega
    · by_cases ha2 : a.name = ".."
      · by_cases hb2 : b.name = ".."
        · rw [specRank_ddot ha1 ha2, specRank_ddot hb1 hb2, ha2, hb2]
          simp [lcmp_refl]
        · have hb := specRank_real_ge hb1 hb2
          rw [specRank_ddot ha1 ha2]
          simp only [if_neg ha1, if_neg hb1, if_pos ha2]
          constructor
          · intro _; exact Or.inl (by omega)
          · intro _; simp
      · by_cases hb2 : b.name = ".."
        · have ha := specRank_real_ge ha1 ha2
          rw [specRank_ddot hb1 hb2]
          simp only [if_neg ha1, if_neg hb1, if_neg ha2, if_pos hb2]
          constructor
          · intro h; exact absurd rfl h
          · intro h
            rcases h with h | ⟨h, _⟩ <;> omega
        · rw [specRank_real ha1 ha2, specRank_real hb1 hb2]
          simp only [if_neg ha1, if_neg hb1, if_neg ha2, if_neg hb2]
          by_cases hd : a.is_dir = b.is_dir
          · rw [if_pos hd, hd]
            constructor
            · intro h
              exact Or.inr ⟨rfl, h⟩
            · intro h
              rcases h with h | ⟨_, hl⟩
              · omega
              · exact hl
          · rw [if_neg hd]
            rcases Bool.eq_false_or_eq_true a.is_dir with hav | hav <;>
              rcases Bool.eq_false_or_eq_true b.is_dir with hbv | hbv <;>
                simp_all [boolCmp]

theorem entryLe_total (a b : FileEntry) : entryLe a b ∨ entryLe b a := by
  rw [entryLe_iff_specLe, entryLe_iff_specLe]
  exact specLe_total a b

theorem entryLe_trans {a b c : FileEntry}
    (h1 : entryLe a b) (h2 : entryLe b c) : entryLe a c := by
  rw [entryLe_iff_specLe] at h1 h2 ⊢
  exact specLe_trans h1 h2

theorem perm_insertCmp (cmp : FileEntry → FileEntry → Ordering)
    (x : FileEntry) (l : List FileEntry) :
    (insertCmp cmp x l).Perm (x :: l) := by
  induction l with
  | nil => simp [insertCmp]
  | cons h t ih =>
    simp only [insertCmp]
    split_ifs with hc
    · exact ((ih.cons h).trans (List.Perm.swap x h t))
    · exact List.Perm.refl _

theorem perm_sortByCmp (cmp : FileEntry → FileEntry → Ordering)
    (l : List FileEntry) : (sortByCmp cmp l).Perm l := by
  induction l with
  | nil => simp [sortByCmp]
  | cons h t ih =>
    have : sortByCmp cmp (h :: t) = insertCmp cmp h (sortByCmp cmp t) := rfl
    rw [this]
    exact (perm_insertCmp cmp h (sortByCmp cmp t)).trans (ih.cons h)

theorem pairwise_insertCmp (x : FileEntry) (l : List FileEntry)
    (hl : l.Pairwise entryLe) :
    (insertCmp entryCmp x l).Pairwise entryLe := by
  induction l with
  | nil => simp [insertCmp, List.Pairwise]
  | cons h t ih =>
    rcases List.pairwise_cons.mp hl with ⟨hhd, htl⟩
    simp only [insertCmp]
    split_ifs with hc
    · refine List.pairwise_cons.mpr ⟨?_, ih htl⟩
      intro y hy
      have hy' : y = x ∨ y ∈ t :=
        List.mem_cons.mp ((List.Perm.mem_iff (perm_insertCmp entryCmp x t)).mp hy)
      rcases hy' with rfl | hy'
      · rcases entryLe_total h y with hle | hle
        · exact hle
        · exact absurd hc hle
      · exact hhd y hy'
  -- x goes in front: x ≤ h by the failed comparison, the rest by transitivity
    · refine List.pairwise_cons.mpr ⟨?_, hl⟩
      intro y hy
      have hxh : entryLe x h := hc
      rcases List.mem_cons.mp hy with rfl | hy'
      · exact hxh
      · exact entryLe_trans hxh (hhd y hy')

theorem pairwise_sortByCmp (l : List FileEntry) :
    (sortByCmp entryCmp l).Pairwise entryLe := by
  induction l with
  | nil => simp [sortByCmp, List.Pairwise]
  | cons h t ih => exact pairwise_insertCmp h (sortByCmp entryCmp t) ih

theorem min_head_of_pairwise (x : FileEntry) (l : List FileEntry)
    (hpw : l.Pairwise specLe) (hx : x ∈ l)
    (hmin : ∀ y ∈ l, specRank y ≤ specRank x → y = x) :
    ∃ t, l = x :: t := by
  cases l with
  | nil => exact absurd hx (List.not_mem_nil x)
  | cons h t =>
    rcases List.mem_cons.mp hx with rfl | hx'
    · exact ⟨t, rfl⟩
    · have hle : specLe h x := (List.pairwise_cons.mp hpw).1 x hx'
    -- the head ranks at most like x, so by uniqueness it is x
      have : specRank h ≤ specRank x := by
        rcases hle with h' | ⟨h', _⟩ <;> omega
      rcases hmin h (List.mem_cons_self h t) this with rfl
      exact ⟨t, rfl⟩


theorem listing_sorted_core (dotE : FileEntry) (rest : List FileEntry)
    (hdotname : dotE.name = ".")
    (hrest_not_dot : ∀ e ∈ rest, e.name ≠ ".") :
    (sortByCmp entryCmp (dotE :: rest)).Pairwise specLe ∧
    (sortByCmp entryCmp (dotE :: rest)).Perm (dotE :: rest) ∧
    ∃ t, sortByCmp entryCmp (dotE :: rest) = dotE :: t := by
  have hperm : (sortByCmp entryCmp (dotE :: rest)).Perm (dotE :: rest) :=
    perm_sortByCmp _ _
  have hpw : (sortByCmp entryCmp (dotE :: rest)).Pairwise specLe :=
    (pairwise_sortByCmp _).imp (fun h => (entryLe_iff_specLe _ _).mp h)
  have hchar_dot : ∀ e ∈ dotE :: rest, e.name = "." → e = dotE := by
    intro e he hn
    rcases List.mem_cons.mp he with rfl | he'
    · rfl
    · exact absurd hn (hrest_not_dot e he')
  have hdot_mem : dotE ∈ sortByCmp entryCmp (dotE :: rest) :=
    (List.Perm.mem_iff hperm).mpr (List.mem_cons_self _ _)
  refine ⟨hpw, hperm, ?_⟩
  refine min_head_of_pairwise _ _ hpw hdot_mem ?_
  intro y hy hle
  rw [specRank_dot hdotname] at hle
  exact hchar_dot y ((List.Perm.mem_iff hperm).mp hy)
    (specRank_eq_zero_iff.mp (Nat.le_zero.mp hle))

theorem listing_second_core (dotE ddotE : FileEntry)
    (rest : List FileEntry)
    (hdotname : dotE.name = ".") (hddotname : ddotE.name = "..")
    (hrest : ∀ e ∈ rest, e.name ≠ "." ∧ e.name ≠ "..") :
    ∃ t, sortByCmp entryCmp (dotE :: ddotE :: rest)
      = dotE :: ddotE :: t := by
  classical
  have hddot_not_dot : ddotE.name ≠ "." := by rw [hddotname]; decide
  have hrest_not_dot : ∀ e ∈ ddotE :: rest, e.name ≠ "." := by
    intro e he
    rcases List.mem_cons.mp he with rfl | he'
    · exact hddot_not_dot
    · exact (hrest e he').1
  obtain ⟨hpw, hperm, t1, ht1⟩ :=
    listing_sorted_core dotE (ddotE :: rest) hdotname hrest_not_dot
  have hddot_ne_dot : ddotE ≠ dotE := by
    intro h
    rw [h, hdotname] at hddotname
    exact absurd hddotname (by decide)
  have hddot_mem_t1 : ddotE ∈ t1 := by
    have hm : ddotE ∈ sortByCmp entryCmp (dotE :: ddotE :: rest) :=
      (List.Perm.mem_iff hperm).mpr (List.mem_cons_of_mem _ (List.mem_cons_self _ _))
    rw [ht1] at hm
    rcases List.mem_cons.mp hm with h | h
    · exact absurd h hddot_ne_dot
    · exact h
  have hpw_t1 : t1.Pairwise specLe := by
    rw [ht1] at hpw
    exact (List.pairwise_cons.mp hpw).2
  have hcount_base : (dotE :: ddotE :: rest).count dotE = 1 := by
    rw [List.count_cons_self]
    have h0 : (ddotE :: rest).count dotE = 0 := by
      rw [List.count_eq_zero]
      intro h
      exact hrest_not_dot _ h hdotname
    omega
  have hdot_notmem_t1 : dotE ∉ t1 := by
    intro h
    have hc := List.Perm.count_eq hperm dotE
    rw [ht1, hcount_base, List.count_cons_self] at hc
    have : 0 < t1.count dotE := List.count_pos_iff.mpr h
    omega
  have hchar_dot : ∀ e ∈ dotE :: ddotE :: rest, e.name = "." → e = dotE := by
    intro e he hn
    rcases List.mem_cons.mp he with rfl | he'
    · rfl
    · exact absurd hn (hrest_not_dot e he')
  have hchar_ddot : ∀ e ∈ dotE :: ddotE :: rest, e.name = ".." →
      e = ddotE := by
    intro e he hn
    rcases List.mem_cons.mp he with rfl | he'
    · rw [hdotname] at hn
      exact absurd hn (by decide)
    · rcases List.mem_cons.mp he' with rfl | he''
      · rfl
      · exact absurd hn (hrest e he'').2
  have hsecond : ∃ t2, t1 = ddotE :: t2 := by
    refine min_head_of_pairwise _ _ hpw_t1 hddot_mem_t1 ?_
    intro y hy hle
    have hy_base : y ∈ dotE :: ddotE :: rest := by
      refine (List.Perm.mem_iff hperm).mp ?_
      rw [ht1]
      exact List.mem_cons_of_mem _ hy
    rw [specRank_ddot hddot_not_dot hddotname] at hle
    rcases Nat.le_one_iff_eq_zero_or_eq_one.mp hle with h0 | h1
    · exfalso
      have := hchar_dot y hy_base (specRank_eq_zero_iff.mp h0)
      subst this
      exact hdot_notmem_t1 hy
    · exact hchar_ddot y hy_base (specRank_eq_one_iff.mp h1).2
  obtain ⟨t2, ht2⟩ := hsecond
  exact ⟨t2, by rw [ht1, ht2]⟩

/-- C1: every listing produced by `list_directory` is ordered: the
synthetic `"."` entry first, then (when the current directory has a
parent) the synthetic `".."` entry, then directories before files with
case-insensitive name order inside each group (`Pairwise specLe`), and
the listing is a permutation of the constructed entries. -/
theorem xplore_c1_listing_order
    (cur : String) (parent : Option String) (dm ddm : MetaInfo)
    (reals : List FileEntry)
    (hreals : ∀ e ∈ reals, e.name ≠ "." ∧ e.name ≠ "..") :
    (list_directory cur parent dm ddm reals).Pairwise specLe ∧
    (list_directory cur parent dm ddm reals).Perm
      (mkDotEntry cur dm ::
        ((match parent with
          | some p => [mkDotDotEntry p ddm]
          | none => []) ++ reals)) ∧
    (∃ t, list_directory cur parent dm ddm reals = mkDotEntry cur dm :: t) ∧
    (∀ p, parent = some p →
      ∃ t, list_directory cur parent dm ddm reals
        = mkDotEntry cur dm :: mkDotDotEntry p ddm :: t) := by
  cases parent with
  | none =>
    have hcore := listing_sorted_core (mkDotEntry cur dm) ([] ++ reals)
      rfl (by
        intro e he
        rw [List.nil_append] at he
        exact (hreals e he).1)
    refine ⟨hcore.1, hcore.2.1, hcore.2.2, ?_⟩
    intro p hp
    exact absurd hp (by simp)
  | some p =>
    have hfirst := listing_sorted_core (mkDotEntry cur dm)
      ([mkDotDotEntry p ddm] ++ reals) rfl (by
        intro e he
        rcases List.mem_append.mp he with hd | hr
        · rcases List.mem_singleton.mp hd with rfl
          simp [mkDotDotEntry]
        · exact (hreals e hr).1)
    have hsecond := listing_second_core (mkDotEntry cur dm)
      (mkDotDotEntry p ddm) reals rfl rfl hreals
    exact ⟨hfirst.1, hfirst.2.1, hfirst.2.2, fun q hq => by
      rcases Option.some.inj hq with rfl
      exact hsecond⟩

def c1meta : MetaInfo := ⟨0, "drwxr-xr-x", "1000", "1000"⟩

def c1fileB : FileEntry :=
  ⟨"b.txt", "/d/b.txt", 3, false, 0, none, "-rw-r--r--", "1000", "1000"⟩

def c1dirA : FileEntry :=
  ⟨"A", "/d/A", 0, true, 0, none, "drwxr-xr-x", "1000", "1000"⟩

theorem xplore_c1_witness :
    (list_directory "/d" (some "/") c1meta c1meta [c1fileB, c1dirA]).Pairwise
        specLe ∧
    (list_directory "/d" (some "/") c1meta c1meta [c1fileB, c1dirA]).Perm
      (mkDotEntry "/d" c1meta ::
        ((match (some "/" : Option String) with
          | some p => [mkDotDotEntry p c1meta]
          | none => []) ++ [c1fileB, c1dirA])) ∧
    (∃ t, list_directory "/d" (some "/") c1meta c1meta [c1fileB, c1dirA]
      = mkDotEntry "/d" c1meta :: t) ∧
    (∀ p, (some "/" : Option String) = some p →
      ∃ t, list_directory "/d" (some "/") c1meta c1meta [c1fileB, c1dirA]
        = mkDotEntry "/d" c1meta :: mkDotDotEntry p c1meta :: t) :=
  xplore_c1_listing_order "/d" (some "/") c1meta c1meta [c1fileB, c1dirA]
    (by decide)

/-- The OS path oracles the Directory Model calls: `Path::join`,
`fs::canonicalize` (which can fail) and `Path::is_dir`, plus
`Path::file_name` used by the paste handler.  `P` is the path type. -/
structure OSModel (P : Type) where
  join : P → P → P
  canonicalize : P → Option P
  is_dir : P → Bool
  fileName : P → Option String
  joinName : P → String → P

/-- The Directory Model state: one owned absolute current directory
(`FileSystemManager` in src/filesystem/manager.rs). -/
structure FSManager (P : Type) where
  current_dir : P

/-- The one error kind `navigate_to` produces. -/
inductive IOErrorKind where
  | NotADirectory
deriving DecidableEq

/-- The resolved target of `navigate_to`: the argument joined onto the
current directory, canonicalized when canonicalization succeeds,
otherwise the joined path itself (`canonicalize(...).unwrap_or(full_path)`). -/
def resolvePath {P : Type} (os : OSModel P) (cur p : P) : P :=
  (os.canonicalize (os.join cur p)).getD (os.join cur p)

/-- `FileSystemManager::navigate_to`: change the current directory to
the resolved target exactly when it is a directory, otherwise fail with
`NotADirectory` leaving the state untouched. -/
def navigate_to {P : Type} (os : OSModel P) (m : FSManager P) (path : P) :
    Except IOErrorKind Unit × FSManager P :=
  let full_path := os.join m.current_dir path
  let new_path := (os.canonicalize full_path).getD full_path
  if os.is_dir new_path then (Except.ok (), ⟨new_path⟩)
  else (Except.error IOErrorKind.NotADirectory, m)

/-- C2: `navigate_to` mutates the current directory if and only if the
target resolved against the current directory (canonicalized) is a
directory; on a non-directory target it returns `NotADirectory` and the
current directory is exactly what it was before the call. -/
theorem xplore_c2_navigate_to {P : Type} (os : OSModel P)
    (m : FSManager P) (path : P) :
    ((navigate_to os m path).1 = Except.ok () ↔
      os.is_dir (resolvePath os m.current_dir path) = true) ∧
    (os.is_dir (resolvePath os m.current_dir path) = true →
      navigate_to os m path
        = (Except.ok (), ⟨resolvePath os m.current_dir path⟩)) ∧
    (os.is_dir (resolvePath os m.current_dir path) = false →
      navigate_to os m path
        = (Except.error IOErrorKind.NotADirectory, m)) := by
  unfold navigate_to resolvePath
  by_cases h : os.is_dir ((os.canonicalize (os.join m.current_dir path)).getD
      (os.join m.current_dir path)) = true
  · simp [h]
  · simp only [Bool.not_eq_true] at h
    simp [h]

/-- Concrete oracle used by the C2 witness: a two-directory world. -/
def c2os : OSModel String :=
  { join := fun a b => a ++ "/" ++ b
    canonicalize := fun p => some p
    is_dir := fun p => p = "/home/u" ∨ p = "/home/u/docs"
    fileName := fun _ => none
    joinName := fun a b => a ++ "/" ++ b }

theorem xplore_c2_witness :
    navigate_to c2os ⟨"/home/u"⟩ "docs"
      = (Except.ok (), ⟨resolvePath c2os "/home/u" "docs"⟩) ∧
    navigate_to c2os ⟨"/home/u"⟩ "a.txt"
      = (Except.error IOErrorKind.NotADirectory, ⟨"/home/u"⟩) :=
  ⟨(xplore_c2_navigate_to c2os ⟨"/home/u"⟩ "docs").2.1 (by decide),
   (xplore_c2_navigate_to c2os ⟨"/home/u"⟩ "a.txt").2.2 (by decide)⟩

/-- Clipboard mode (src/ui/app.rs). -/
inductive ClipboardMode where
  | Copy
  | Cut
deriving DecidableEq

/-- The clipboard: captured paths plus the pending mode. Paths are kept
as a list standing for the `HashSet<PathBuf>` of the source. -/
structure Clipboard (P : Type) where
  paths : List P
  mode : ClipboardMode

/-- The selection-and-clipboard slice of the session state used by
`App::clear_selection_if_needed`. -/
structure SelState (P : Type) where
  selected_paths : List P
  clipboard : Option (Clipboard P)

/-- `App::clear_selection_if_needed`, run by the "enter a directory"
and "up a level" actions after a successful navigation: the selection
is cleared unless some selected path occurs in the active clipboard. -/
def clear_selection_if_needed {P : Type} [DecidableEq P]
    (s : SelState P) : SelState P :=
  let in_clipboard :=
    match s.clipboard with
    | some cb => s.selected_paths.any (fun p => cb.paths.contains p)
    | none => false
  if in_clipboard then s else { s with selected_paths := [] }

/-- Concrete state refuting C3 as stated: two selected paths, only one
of them in the clipboard. -/
def c3state : SelState String :=
  { selected_paths := ["/d/a", "/d/b"]
    clipboard := some { paths := ["/d/a"], mode := ClipboardMode.Copy } }

/-- C3 counterexample: the claim says the selection is cleared unless
EVERY selected path is in the active clipboard.  In `c3state` the
clipboard is active and non-empty, path "/d/b" is selected but not in
the clipboard, yet the code keeps the whole selection because at least
one selected path ("/d/a") is in the clipboard. -/
theorem xplore_c3_counterexample :
    c3state.clipboard = some { paths := ["/d/a"], mode := ClipboardMode.Copy } ∧
    ¬ (∀ p ∈ c3state.selected_paths, p ∈ ["/d/a"]) ∧
    (clear_selection_if_needed c3state).selected_paths = ["/d/a", "/d/b"] := by
  refine ⟨rfl, ?_, by decide⟩
  intro h
  have := h "/d/b" (by decide)
  simp at this

/-- C3 amended: navigating away clears `selected_paths` unless AT LEAST
ONE selected path is present in the active clipboard, in which case the
selection is left unchanged. -/
theorem xplore_c3_clear_selection {P : Type} [DecidableEq P]
    (s : SelState P) (cb : Clipboard P) (hcb : s.clipboard = some cb) :
    ((∃ p ∈ s.selected_paths, p ∈ cb.paths) →
      clear_selection_if_needed s = s) ∧
    ((∀ p ∈ s.selected_paths, p ∉ cb.paths) →
      (clear_selection_if_needed s).selected_paths = []
        ∧ (clear_selection_if_needed s).clipboard = s.clipboard) := by
  unfold clear_selection_if_needed
  rw [hcb]
  dsimp only
  constructor
  · intro ⟨p, hp, hpc⟩
    have hany : (s.selected_paths.any fun p => cb.paths.contains p) = true :=
      List.any_eq_true.mpr ⟨p, hp, List.elem_eq_true_of_mem hpc⟩
    rw [hany]
    simp
  · intro h
    have hany : ¬ ((s.selected_paths.any fun p => cb.paths.contains p) = true) := by
      rw [List.any_eq_true]
      rintro ⟨p, hp, hpc⟩
      have : p ∈ cb.paths := by simpa using hpc
      exact h p hp this
    rw [Bool.not_eq_true] at hany
    rw [hany]
    simp

theorem xplore_c3_witness :
    ((∃ p ∈ c3state.selected_paths, p ∈ (["/d/a"] : List String)) →
      clear_selection_if_needed c3state = c3state) ∧
    (clear_selection_if_needed c3state = c3state) := by
  have h := xplore_c3_clear_selection c3state
    { paths := ["/d/a"], mode := ClipboardMode.Copy } rfl
  exact ⟨h.1, h.1 ⟨"/d/a", by decide, by decide⟩⟩

/-- One filesystem operation issued by `App::paste_clipboard` against
the Directory Model. -/
inductive PasteOp (P : Type) where
  | copyRec (src dst : P)
  | moveEntry (src dst : P)
deriving DecidableEq

/-- The source path a paste operation acts on. -/
def pasteOpSrc {P : Type} : PasteOp P → P
  | .copyRec src _ => src
  | .moveEntry src _ => src

/-- The slice of session state `App::paste_clipboard` works on. -/
structure PasteState (P : Type) where
  currentDir : P
  clipboard : Option (Clipboard P)

/-- The operation issued for one clipboard path whose final file-name
component is `n`: copy for Copy mode, move for Cut mode, into the
current directory under the preserved name. -/
def pasteOpFor {P : Type} (cur : P) (os : OSModel P) (mode : ClipboardMode)
    (src : P) (n : String) : PasteOp P :=
  match mode with
  | .Copy => PasteOp.copyRec src (os.joinName cur n)
  | .Cut => PasteOp.moveEntry src (os.joinName cur n)

/-- `App::paste_clipboard`: for every clipboard path that has a final
file-name component, issue the mode's operation into the current
directory; paths without one (`src.file_name()` is `None`) are skipped;
afterwards a Cut clipboard is cleared and a Copy clipboard retained. -/
def paste_clipboard {P : Type} (os : OSModel P) (s : PasteState P) :
    PasteState P × List (PasteOp P) :=
  match s.clipboard with
  | none => (s, [])
  | some cb =>
    let ops := cb.paths.filterMap (fun src =>
      (os.fileName src).map (fun n => pasteOpFor s.currentDir os cb.mode src n))
    ({ currentDir := s.currentDir,
       clipboard := match cb.mode with
         | .Cut => none
         | .Copy => some cb }, ops)

/-- C4: after a paste with an active clipboard, Cut mode leaves the
clipboard empty and Copy mode leaves it exactly as it was, so a second
paste issues the same operations again. -/
theorem xplore_c4_clipboard_after_paste {P : Type} (os : OSModel P)
    (s : PasteState P) (cb : Clipboard P) (h : s.clipboard = some cb) :
    (cb.mode = ClipboardMode.Cut →
      (paste_clipboard os s).1.clipboard = none) ∧
    (cb.mode = ClipboardMode.Copy →
      (paste_clipboard os s).1.clipboard = some cb ∧
      (paste_clipboard os (paste_clipboard os s).1).2
        = (paste_clipboard os s).2) := by
  obtain ⟨paths, mode⟩ := cb
  cases mode with
  | Cut =>
    refine ⟨fun _ => ?_, fun hc => ClipboardMode.noConfusion hc⟩
    simp [paste_clipboard, h]
  | Copy =>
    refine ⟨fun hc => ClipboardMode.noConfusion hc, fun _ => ⟨?_, ?_⟩⟩
    · simp [paste_clipboard, h]
    · simp [paste_clipboard, h]

/-- C10: a clipboard path with no final file-name component is silently
skipped by paste — no copy and no move is issued with it as source —
while every clipboard path that does have one still gets its operation,
and the Cut-mode clipboard clearing still applies. -/
theorem xplore_c10_paste_skips_nameless {P : Type} (os : OSModel P)
    (s : PasteState P) (cb : Clipboard P) (h : s.clipboard = some cb)
    (src : P) (hsrc : src ∈ cb.paths) (hname : os.fileName src = none) :
    (∀ op ∈ (paste_clipboard os s).2, pasteOpSrc op ≠ src) ∧
    (∀ p ∈ cb.paths, ∀ n, os.fileName p = some n →
      pasteOpFor s.currentDir os cb.mode p n ∈ (paste_clipboard os s).2) ∧
    (cb.mode = ClipboardMode.Cut →
      (paste_clipboard os s).1.clipboard = none) := by
  have hops : (paste_clipboard os s).2
      = cb.paths.filterMap (fun p =>
          (os.fileName p).map (fun n => pasteOpFor s.currentDir os cb.mode p n)) := by
    simp [paste_clipboard, h]
  refine ⟨?_, ?_, ?_⟩
  · intro op hop
    rw [hops] at hop
    rcases List.mem_filterMap.mp hop with ⟨p, hp, hfp⟩
    rcases Option.map_eq_some'.mp hfp with ⟨n, hn, hop'⟩
    intro hps
    have hpsrc : p = src := by
      rw [← hop'] at hps
      cases hmode : cb.mode <;> rw [hmode] at hps <;>
        simpa [pasteOpFor, hmode] using hps
    rw [hpsrc, hname] at hn
    cases hn
  · intro p hp n hn
    rw [hops]
    refine List.mem_filterMap.mpr ⟨p, hp, ?_⟩
    rw [hn]
    rfl
  · intro hm
    obtain ⟨paths, mode⟩ := cb
    cases hm
    simp [paste_clipboard, h]

/-- Concrete oracle for the paste witnesses: the filesystem root has no
final file-name component, every other path has one. -/
def c4os : OSModel String :=
  { join := fun a b => a ++ "/" ++ b
    canonicalize := fun p => some p
    is_dir := fun _ => true
    fileName := fun p => if p = "/" then none else some "a"
    joinName := fun a b => a ++ "/" ++ b }

def c4cutState : PasteState String :=
  { currentDir := "/t", clipboard := some ⟨["/d/a"], ClipboardMode.Cut⟩ }

def c4copyState : PasteState String :=
  { currentDir := "/t", clipboard := some ⟨["/d/a"], ClipboardMode.Copy⟩ }

theorem xplore_c4_witness :
    (paste_clipboard c4os c4cutState).1.clipboard = none ∧
    ((paste_clipboard c4os c4copyState).1.clipboard
        = some ⟨["/d/a"], ClipboardMode.Copy⟩ ∧
      (paste_clipboard c4os (paste_clipboard c4os c4copyState).1).2
        = (paste_clipboard c4os c4copyState).2) :=
  ⟨(xplore_c4_clipboard_after_paste c4os c4cutState _ rfl).1 rfl,
   (xplore_c4_clipboard_after_paste c4os c4copyState _ rfl).2 rfl⟩

def c10state : PasteState String :=
  { currentDir := "/t", clipboard := some ⟨["/", "/d/a"], ClipboardMode.Cut⟩ }

theorem xplore_c10_witness :
    (∀ op ∈ (paste_clipboard c4os c10state).2, pasteOpSrc op ≠ "/") ∧
    (∀ p ∈ (["/", "/d/a"] : List String), ∀ n, c4os.fileName p = some n →
      pasteOpFor "/t" c4os ClipboardMode.Cut p n
        ∈ (paste_clipboard c4os c10state).2) ∧
    (ClipboardMode.Cut = ClipboardMode.Cut →
      (paste_clipboard c4os c10state).1.clipboard = none) :=
  xplore_c10_paste_skips_nameless c4os c10state _ rfl "/" (by decide) rfl

/-- The case-insensitive name-or-description match used both by
`search_recursive` (src/filesystem/manager.rs) and `apply_filter`
(src/ui/app.rs): the lowercased query is a substring of the lowercased
name, or of the lowercased description when one is present. -/
def nameDescMatches (query name : String) (descr : Option String) : Bool :=
  containsSub (lowerKey name) (lowerKey query) ||
    (match descr with
     | some d => containsSub (lowerKey d) (lowerKey query)
     | none => false)

/-- Metadata of one walked entry; `mod_time` is `none` when
`metadata.modified()` fails (such entries are dropped). -/
structure WalkMeta where
  size : Nat
  is_dir : Bool
  mod_time : Option Nat
  permissions : String
  owner : String
  group : String

/-- One entry yielded by the `walkdir` traversal; `meta` is `none` when
`entry.metadata()` fails. -/
structure WalkEntry where
  path : String
  name : String
  description : Option String
  meta : Option WalkMeta

/-- `FileSystemManager::search_recursive` over a walked subtree
snapshot: keep entries whose name or description matches the query
case-insensitively (dropping those whose metadata reads fail), capped
at 1000 results. -/
def search_recursive (walk : List WalkEntry) (query : String) :
    List FileEntry :=
  (walk.filterMap (fun w =>
    if nameDescMatches query w.name w.description then
      match w.meta with
      | some m =>
        match m.mod_time with
        | some t =>
          some ⟨w.name, w.path, m.size, m.is_dir, t, w.description,
                m.permissions, m.owner, m.group⟩
        | none => none
      | none => none
    else none)).take 1000

/-- C5: `search_recursive` returns at most 1000 results, and every
returned entry matches the query case-insensitively on its name or its
description. -/
theorem xplore_c5_search_bounded (walk : List WalkEntry) (query : String) :
    (search_recursive walk query).length ≤ 1000 ∧
    ∀ e ∈ search_recursive walk query,
      nameDescMatches query e.name e.description = true := by
  constructor
  · exact List.length_take_le 1000 _
  · intro e he
    have he' := List.mem_of_mem_take he
    rcases List.mem_filterMap.mp he' with ⟨w, hw, hf⟩
    by_cases hm : nameDescMatches query w.name w.description = true
    · rw [if_pos hm] at hf
      cases hmeta : w.meta with
      | none => rw [hmeta] at hf; cases hf
      | some m =>
        rw [hmeta] at hf
        dsimp only at hf
        cases hmt : m.mod_time with
        | none => rw [hmt] at hf; cases hf
        | some t =>
          rw [hmt] at hf
          rcases Option.some.inj hf with rfl
          exact hm
    · rw [if_neg hm] at hf
      cases hf

def c5walk : List WalkEntry :=
  [⟨"/x/Notes.txt", "Notes.txt", some "shopping list",
    some ⟨7, false, some 5, "-rw-r--r--", "1000", "1000"⟩⟩,
   ⟨"/x/img", "img", none,
    some ⟨0, true, some 6, "drwxr-xr-x", "1000", "1000"⟩⟩]

def c5entry : FileEntry :=
  ⟨"Notes.txt", "/x/Notes.txt", 7, false, 5, some "shopping list",
   "-rw-r--r--", "1000", "1000"⟩

theorem xplore_c5_witness :
    (search_recursive c5walk "note").length ≤ 1000 ∧
    nameDescMatches "note" c5entry.name c5entry.description = true :=
  ⟨(xplore_c5_search_bounded c5walk "note").1,
   (xplore_c5_search_bounded c5walk "note").2 c5entry (by decide)⟩

/-- The filter-relevant slice of the session state (`App`):
the cached full listing, the filtered view, the cursor, the live search
query, and the list-widget selection. -/
structure FilterState where
  all_entries : List FileEntry
  filtered_entries : List FileEntry
  selected_index : Nat
  search_query : String
  list_selected : Option Nat

/-- `App::apply_filter`: an empty query keeps the whole cached listing;
otherwise entries matching the query case-insensitively on name or
description are kept; then the cursor is clamped (to `len-1` when past
the end of a non-empty view, to 0 when the view is empty) and mirrored
into the list widget. -/
def apply_filter (s : FilterState) : FilterState :=
  let filtered :=
    if s.search_query = "" then s.all_entries
    else s.all_entries.filter
      (fun e => nameDescMatches s.search_query e.name e.description)
  let idx :=
    if s.selected_index ≥ filtered.length ∧ filtered ≠ [] then
      filtered.length - 1
    else if filtered = [] then 0
    else s.selected_index
  { s with
      filtered_entries := filtered
      selected_index := idx
      list_selected := some idx }

/-- C8: applying the filter with an empty query makes the filtered view
exactly the cached listing; applying it with a query no entry matches
makes the view empty and resets the cursor to 0. -/
theorem xplore_c8_filter (s : FilterState) :
    (s.search_query = "" →
      (apply_filter s).filtered_entries = s.all_entries) ∧
    (s.search_query ≠ "" →
      (∀ e ∈ s.all_entries,
        nameDescMatches s.search_query e.name e.description = false) →
      (apply_filter s).filtered_entries = [] ∧
      (apply_filter s).selected_index = 0) := by
  constructor
  · intro hq
    simp [apply_filter, hq]
  · intro hq hnone
    have hfil : s.all_entries.filter
        (fun e => nameDescMatches s.search_query e.name e.description)
          = [] := by
      rw [List.filter_eq_nil_iff]
      intro e he
      rw [hnone e he]
      exact Bool.false_ne_true
    constructor
    · simp [apply_filter, hq, hfil]
    · simp [apply_filter, hq, hfil]

def c8state : FilterState :=
  { all_entries := [c1fileB, c1dirA]
    filtered_entries := [c1fileB, c1dirA]
    selected_index := 1
    search_query := "zzz"
    list_selected := some 1 }

theorem xplore_c8_witness :
    ("zzz" : String) ≠ "" ∧
    ((apply_filter c8state).filtered_entries = [] ∧
      (apply_filter c8state).selected_index = 0) ∧
    (apply_filter { c8state with search_query := "" }).filtered_entries
      = c8state.all_entries :=
  ⟨by decide,
   (xplore_c8_filter c8state).2 (by decide) (by decide),
   (xplore_c8_filter { c8state with search_query := "" }).1 rfl⟩

/-- The keybinding table (src/config.rs), one canonical key string per
action. -/
structure Keybindings where
  quit : String
  edit : String
  up : String
  down : String
  enter : String
  backspace : String
  settings : String
  search : String
  select : String
  copy : String
  cut : String
  paste : String
  new_folder : String
  delete : String
  help : String
  home : String
  end_ : String
  ctrl_home : String
  ctrl_end : String
  page_up : String
  page_down : String
  select_all : String
  deselect_all : String
deriving DecidableEq

/-- The configuration owning the keybindings. -/
structure Config where
  keybindings : Keybindings
deriving DecidableEq

/-- `Config::get_actions`: the flattened (action, current key) list, in
source order. -/
def get_actions (c : Config) : List (String × String) :=
  [("up", c.keybindings.up),
   ("down", c.keybindings.down),
   ("enter", c.keybindings.enter),
   ("backspace", c.keybindings.backspace),
   ("help", c.keybindings.help),
   ("quit", c.keybindings.quit),
   ("settings", c.keybindings.settings),
   ("home", c.keybindings.home),
   ("end", c.keybindings.end_),
   ("ctrl_home", c.keybindings.ctrl_home),
   ("ctrl_end", c.keybindings.ctrl_end),
   ("page_up", c.keybindings.page_up),
   ("page_down", c.keybindings.page_down),
   ("select_all", c.keybindings.select_all),
   ("deselect_all", c.keybindings.deselect_all),
   ("select", c.keybindings.select),
   ("copy", c.keybindings.copy),
   ("cut", c.keybindings.cut),
   ("paste", c.keybindings.paste),
   ("new_folder", c.keybindings.new_folder),
   ("delete", c.keybindings.delete),
   ("edit", c.keybindings.edit),
   ("search", c.keybindings.search)]

/-- `Config::is_key_taken`: some action other than `exclude` currently
holds `key`. -/
def is_key_taken (c : Config) (key exclude : String) : Bool :=
  (get_actions c).any (fun ak => (ak.1 != exclude) && (ak.2 == key))

/-- The valid action names accepted by `Config::set_key`. -/
def actionNames : List String :=
  ["quit", "edit", "up", "down", "enter", "backspace", "settings",
   "search", "select", "copy", "cut", "paste", "new_folder", "delete",
   "help", "home", "end", "ctrl_home", "ctrl_end", "page_up",
   "page_down", "select_all", "deselect_all"]

/-- `Config::set_key`: reject when the key is already assigned to a
different action (configuration untouched), otherwise store the key
under the action's field; unknown actions are rejected. -/
def set_key (c : Config) (action key : String) :
    Except String Unit × Config :=
  if is_key_taken c key action then
    (Except.error "Key already assigned to another action", c)
  else
    match action with
    | "quit" => (Except.ok (), { c with keybindings.quit := key })
    | "edit" => (Except.ok (), { c with keybindings.edit := key })
    | "up" => (Except.ok (), { c with keybindings.up := key })
    | "down" => (Except.ok (), { c with keybindings.down := key })
    | "enter" => (Except.ok (), { c with keybindings.enter := key })
    | "backspace" => (Except.ok (), { c with keybindings.backspace := key })
    | "settings" => (Except.ok (), { c with keybindings.settings := key })
    | "search" => (Except.ok (), { c with keybindings.search := key })
    | "select" => (Except.ok (), { c with keybindings.select := key })
    | "copy" => (Except.ok (), { c with keybindings.copy := key })
    | "cut" => (Except.ok (), { c with keybindings.cut := key })
    | "paste" => (Except.ok (), { c with keybindings.paste := key })
    | "new_folder" => (Except.ok (), { c with keybindings.new_folder := key })
    | "delete" => (Except.ok (), { c with keybindings.delete := key })
    | "help" => (Except.ok (), { c with keybindings.help := key })
    | "home" => (Except.ok (), { c with keybindings.home := key })
    | "end" => (Except.ok (), { c with keybindings.end_ := key })
    | "ctrl_home" => (Except.ok (), { c with keybindings.ctrl_home := key })
    | "ctrl_end" => (Except.ok (), { c with keybindings.ctrl_end := key })
    | "page_up" => (Except.ok (), { c with keybindings.page_up := key })
    | "page_down" => (Except.ok (), { c with keybindings.page_down := key })
    | "select_all" => (Except.ok (), { c with keybindings.select_all := key })
    | "deselect_all" =>
      (Except.ok (), { c with keybindings.deselect_all := key })
    | _ => (Except.error "Invalid action", c)

/-- C9: binding a key that is already bound to a different action is
rejected with an error and leaves the configuration unchanged; once the
key is not held by any other action, binding it to a valid action
succeeds and the binding is visible afterwards. -/
theorem xplore_c9_binding_conflict (c : Config) (a1 a2 key : String) :
    ((a1, key) ∈ get_actions c → a1 ≠ a2 →
      set_key c a2 key
        = (Except.error "Key already assigned to another action", c)) ∧
    (a2 ∈ actionNames → is_key_taken c key a2 = false →
      (set_key c a2 key).1 = Except.ok () ∧
      (a2, key) ∈ get_actions (set_key c a2 key).2) := by
  constructor
  · intro hmem hne
    have htaken : is_key_taken c key a2 = true :=
      List.any_eq_true.mpr ⟨(a1, key), hmem, by simp [hne]⟩
    unfold set_key
    rw [htaken]
    simp
  · intro ha2 hfree
    fin_cases ha2 <;>
      refine ⟨?_, ?_⟩ <;>
        simp [set_key, hfree, get_actions]

/-- The default keybindings from `Config::default` in src/config.rs. -/
def defaultConfig : Config :=
  { keybindings :=
    { quit := "q"
      edit := "e"
      up := "k"
      down := "j"
      enter := "enter"
      backspace := "backspace"
      settings := "s"
      search := "f3"
      select := "space"
      copy := "ctrl+c"
      cut := "ctrl+x"
      paste := "ctrl+v"
      new_folder := "ctrl+n"
      delete := "shift+delete"
      help := "f1"
      home := "home"
      end_ := "end"
      ctrl_home := "ctrl+home"
      ctrl_end := "ctrl+end"
      page_up := "pageup"
      page_down := "pagedown"
      select_all := "ctrl+a"
      deselect_all := "ctrl+d" } }

/-- The configuration after the "up" action is rebound away from "k". -/
def c9rebound : Config := (set_key defaultConfig "up" "x").2

theorem xplore_c9_witness :
    (set_key defaultConfig "down" "k"
      = (Except.error "Key already assigned to another action",
         defaultConfig)) ∧
    ((set_key c9rebound "down" "k").1 = Except.ok () ∧
      ("down", "k") ∈ get_actions (set_key c9rebound "down" "k").2) :=
  ⟨(xplore_c9_binding_conflict defaultConfig "up" "down" "k").1
      (by decide) (by decide),
   (xplore_c9_binding_conflict c9rebound "up" "down" "k").2
      (by decide) (by decide)⟩

/-- One filesystem/xattr operation performed by
`FileSystemManager::move_entry`, in order of execution. -/
inductive FsOp where
  | listAttrs (p : String)
  | getAttr (p attrName : String)
  | rename (src dst : String)
  | copyRec (src dst : String)
  | deleteRec (p : String)
  | setAttr (p attrName val : String)
deriving DecidableEq

/-- The outcomes of the fallible OS calls inside `move_entry`:
the (attribute, value) pairs `xattr::list`/`xattr::get` yield for the
source, and whether rename / recursive copy / recursive delete
succeed. -/
structure MoveEnv where
  srcAttrs : List (String × String)
  renameOk : Bool
  copyOk : Bool
  deleteOk : Bool

/-- The xattr reads `move_entry` performs on the source before
anything else. -/
def moveReadOps (env : MoveEnv) (src : String) : List FsOp :=
  FsOp.listAttrs src :: env.srcAttrs.map (fun av => FsOp.getAttr src av.1)

/-- The xattr writes re-applying the source's attributes to the
destination. -/
def moveSetOps (env : MoveEnv) (dst : String) : List FsOp :=
  env.srcAttrs.map (fun av => FsOp.setAttr dst av.1 av.2)

/-- `FileSystemManager::move_entry` as an operation trace: read the
source's xattrs, attempt the rename; on success re-apply the attributes
to the destination; on failure fall back to `copy_recursive`, re-apply
the attributes, then `delete_recursive(src)`; a copy failure aborts
before the attribute re-application and the delete. -/
def move_entry (env : MoveEnv) (src dst : String) :
    Except Unit Unit × List FsOp :=
  if env.renameOk then
    (Except.ok (),
     moveReadOps env src ++ [FsOp.rename src dst] ++ moveSetOps env dst)
  else if env.copyOk then
    ((if env.deleteOk then Except.ok () else Except.error ()),
     moveReadOps env src ++ [FsOp.rename src dst, FsOp.copyRec src dst]
       ++ moveSetOps env dst ++ [FsOp.deleteRec src])
  else
    (Except.error (),
     moveReadOps env src ++ [FsOp.rename src dst, FsOp.copyRec src dst])

/-- Attribute state: per path, per attribute name, an optional value. -/
def AttrMap : Type := String → String → Option String

/-- Setting one attribute on one path. -/
def setAttrMap (m : AttrMap) (p n v : String) : AttrMap :=
  fun q a => if q = p ∧ a = n then some v else m q a

/-- Run a trace over an attribute state: `setAttr` writes the
attribute, every other operation acts through the ambient
interpretation `interp` of its filesystem effect. -/
def applyAttrOps (interp : FsOp → AttrMap → AttrMap) (ops : List FsOp)
    (m : AttrMap) : AttrMap :=
  ops.foldl (fun m op =>
    match op with
    | FsOp.setAttr p n v => setAttrMap m p n v
    | _ => interp op m) m

theorem applyAttrOps_append (interp : FsOp → AttrMap → AttrMap)
    (l1 l2 : List FsOp) (m : AttrMap) :
    applyAttrOps interp (l1 ++ l2) m
      = applyAttrOps interp l2 (applyAttrOps interp l1 m) := by
  unfold applyAttrOps
  exact List.foldl_append _ _ _ _

theorem applyAttrOps_setOps_other (interp : FsOp → AttrMap → AttrMap)
    (attrs : List (String × String)) (dst : String) (m : AttrMap)
    (a : String) (ha : a ∉ attrs.map Prod.fst) :
    applyAttrOps interp
      (attrs.map (fun av => FsOp.setAttr dst av.1 av.2)) m dst a
        = m dst a := by
  induction attrs generalizing m with
  | nil => rfl
  | cons av rest ih =>
    have hne : a ≠ av.1 := by
      intro h
      exact ha (by simp [h])
    have ha' : a ∉ rest.map Prod.fst := by
      intro h
      exact ha (by simp [h])
    have hstep : applyAttrOps interp
        ((av :: rest).map (fun av => FsOp.setAttr dst av.1 av.2)) m
          = applyAttrOps interp
            (rest.map (fun av => FsOp.setAttr dst av.1 av.2))
            (setAttrMap m dst av.1 av.2) := rfl
    rw [hstep, ih _ ha']
    simp [setAttrMap, hne]

theorem applyAttrOps_setOps_mem (interp : FsOp → AttrMap → AttrMap)
    (attrs : List (String × String)) (dst : String) (m : AttrMap)
    (hnd : (attrs.map Prod.fst).Nodup) :
    ∀ nv ∈ attrs,
      applyAttrOps interp
        (attrs.map (fun av => FsOp.setAttr dst av.1 av.2)) m dst nv.1
          = some nv.2 := by
  induction attrs generalizing m with
  | nil => intro nv h; cases h
  | cons av rest ih =>
    intro nv hnv
    have hnd2 : (av.1 :: rest.map Prod.fst).Nodup := by simpa using hnd
    have hstep : applyAttrOps interp
        ((av :: rest).map (fun av => FsOp.setAttr dst av.1 av.2)) m
          = applyAttrOps interp
            (rest.map (fun av => FsOp.setAttr dst av.1 av.2))
            (setAttrMap m dst av.1 av.2) := rfl
    rcases List.mem_cons.mp hnv with rfl | hnv'
    · have hnotin : nv.1 ∉ rest.map Prod.fst :=
        (List.nodup_cons.mp hnd2).1
      rw [hstep, applyAttrOps_setOps_other interp rest dst _ _ hnotin]
      simp [setAttrMap]
    · have hnd' : (rest.map Prod.fst).Nodup := (List.nodup_cons.mp hnd2).2
      rw [hstep]
      exact ih _ hnd' nv hnv'

/-- C7: `move_entry` reads the source's extended attributes before
anything else and then attempts the rename first; on rename failure it
falls back to `copy_recursive` followed by `delete_recursive(src)`; in
every successful outcome the attribute re-application runs and leaves
the destination carrying the source's attribute values (for any effect
interpretation under which deleting the source does not change the
destination's attributes). -/
theorem xplore_c7_move_entry (env : MoveEnv) (src dst : String)
    (hnd : (env.srcAttrs.map Prod.fst).Nodup) :
    (∃ tail, (move_entry env src dst).2
      = moveReadOps env src ++ FsOp.rename src dst :: tail) ∧
    (env.renameOk = true →
      move_entry env src dst
        = (Except.ok (), moveReadOps env src ++ [FsOp.rename src dst]
            ++ moveSetOps env dst)) ∧
    (env.renameOk = false → env.copyOk = true → env.deleteOk = true →
      move_entry env src dst
        = (Except.ok (), moveReadOps env src
            ++ [FsOp.rename src dst, FsOp.copyRec src dst]
            ++ moveSetOps env dst ++ [FsOp.deleteRec src])) ∧
    (∀ interp : FsOp → AttrMap → AttrMap, ∀ init : AttrMap,
      (∀ m a, interp (FsOp.deleteRec src) m dst a = m dst a) →
      (move_entry env src dst).1 = Except.ok () →
      ∀ nv ∈ env.srcAttrs,
        applyAttrOps interp (move_entry env src dst).2 init dst nv.1
          = some nv.2) := by
  refine ⟨?_, ?_, ?_, ?_⟩
  · unfold move_entry
    by_cases h1 : env.renameOk = true
    · rw [if_pos h1]
      exact ⟨moveSetOps env dst, by simp⟩
    · rw [if_neg h1]
      by_cases h2 : env.copyOk = true
      · rw [if_pos h2]
        exact ⟨FsOp.copyRec src dst
          :: (moveSetOps env dst ++ [FsOp.deleteRec src]), by simp⟩
      · rw [if_neg h2]
        exact ⟨[FsOp.copyRec src dst], by simp⟩
  · intro h
    unfold move_entry
    rw [if_pos h]
  · intro h1 h2 h3
    unfold move_entry
    rw [if_neg (by simp [h1]), if_pos h2, if_pos h3]
  · intro interp init hdel hok nv hnv
    unfold move_entry at hok ⊢
    by_cases h1 : env.renameOk = true
    · rw [if_pos h1] at hok ⊢
      dsimp only
      rw [applyAttrOps_append]
      exact applyAttrOps_setOps_mem interp env.srcAttrs dst _ hnd nv hnv
    · rw [if_neg h1] at hok ⊢
      by_cases h2 : env.copyOk = true
      · rw [if_pos h2] at hok ⊢
        by_cases h3 : env.deleteOk = true
        · rw [if_pos h3] at hok ⊢
          dsimp only
          have hassoc : moveReadOps env src
              ++ [FsOp.rename src dst, FsOp.copyRec src dst]
              ++ moveSetOps env dst ++ [FsOp.deleteRec src]
            = (moveReadOps env src
                ++ [FsOp.rename src dst, FsOp.copyRec src dst]
                ++ moveSetOps env dst) ++ [FsOp.deleteRec src] := by simp
          rw [hassoc, applyAttrOps_append]
          have h4 : applyAttrOps interp [FsOp.deleteRec src]
              (applyAttrOps interp (moveReadOps env src
                ++ [FsOp.rename src dst, FsOp.copyRec src dst]
                ++ moveSetOps env dst) init) dst nv.1
              = (applyAttrOps interp (moveReadOps env src
                ++ [FsOp.rename src dst, FsOp.copyRec src dst]
                ++ moveSetOps env dst) init) dst nv.1 := hdel _ nv.1
          rw [h4, applyAttrOps_append]
          exact applyAttrOps_setOps_mem interp env.srcAttrs dst _ hnd nv hnv
        · rw [if_neg h3] at hok
          cases hok
      · rw [if_neg h2] at hok
        cases hok

/-- Concrete move environment: one source attribute, rename fails
(cross-device), copy and delete succeed. -/
def c7env : MoveEnv :=
  { srcAttrs := [("user.xdg.comment", "hello")]
    renameOk := false
    copyOk := true
    deleteOk := true }

theorem xplore_c7_witness :
    (move_entry c7env "/a/f" "/b/f"
      = (Except.ok (), moveReadOps c7env "/a/f"
          ++ [FsOp.rename "/a/f" "/b/f", FsOp.copyRec "/a/f" "/b/f"]
          ++ moveSetOps c7env "/b/f" ++ [FsOp.deleteRec "/a/f"])) ∧
    applyAttrOps (fun _ m => m) (move_entry c7env "/a/f" "/b/f").2
      (fun _ _ => none) "/b/f" "user.xdg.comment" = some "hello" :=
  ⟨(xplore_c7_move_entry c7env "/a/f" "/b/f" (by decide)).2.2.1
      rfl rfl rfl,
   (xplore_c7_move_entry c7env "/a/f" "/b/f" (by decide)).2.2.2
      (fun _ m => m) (fun _ _ => none) (fun _ _ => rfl) rfl
      ("user.xdg.comment", "hello") (by decide)⟩

/-- The sync-relevant slice of `App` state used by `App::tick`:
the Directory Model's current directory, the last-synced path marker,
the discovered shell process id (0 = undiscovered) and the tick
counter. -/
structure SyncState (P : Type) where
  managerDir : P
  lastSynced : P
  shellId : Nat
  tickCount : Nat
deriving DecidableEq

/-- The per-tick OS answers: the path oracles, the result of the
process-table walk (`find_shell_pid`), and the shell's working
directory read from `/proc/<pid>/cwd` (`none` when unreadable). -/
structure TickEnv (P : Type) where
  os : OSModel P
  findShell : Option Nat
  shellCwd : Nat → Option P

/-- Step 2 of `App::tick` (GUI→shell): when the manager path differs
from the last-synced path, a `cd` for it is written to the PTY and the
marker is updated.  Returns (cd written, new last-synced path). -/
def tickCd {P : Type} [DecidableEq P] (s : SyncState P) : Option P × P :=
  if s.managerDir ≠ s.lastSynced then (some s.managerDir, s.managerDir)
  else (none, s.lastSynced)

/-- Step 3a of `App::tick` (shell discovery): every 5th tick while the
shell id is 0, adopt the process-table walk's answer. -/
def tickShellId {P : Type} (e : TickEnv P) (s : SyncState P)
    (tc : Nat) : Nat :=
  if s.shellId = 0 then
    if tc % 5 = 0 then e.findShell.getD 0 else 0
  else s.shellId

/-- `App::tick` restricted to the sync-relevant fields.  The PTY drain
and the every-10th-tick listing refresh do not touch these fields.
Step 2 (GUI→shell `cd`) runs before step 3 (shell→GUI): every 5th tick
with a known shell id, the shell's reported cwd is read; when it
differs from the manager path, `navigate_to` is attempted and on
success the last-synced marker is set to the reported directory in the
same tick; an unreadable cwd resets the shell id to 0. -/
def tick {P : Type} [DecidableEq P] (e : TickEnv P) (s : SyncState P) :
    SyncState P × Option P :=
  let tc := s.tickCount + 1
  let cdW := (tickCd s).1
  let synced1 := (tickCd s).2
  let sid := tickShellId e s tc
  if sid > 0 ∧ tc % 5 = 0 then
    match e.shellCwd sid with
    | some target =>
      if target ≠ s.managerDir then
        match navigate_to e.os ⟨s.managerDir⟩ target with
        | (Except.ok _, m') =>
          ({ managerDir := m'.current_dir, lastSynced := target,
             shellId := sid, tickCount := tc }, cdW)
        | (Except.error _, _) =>
          ({ managerDir := s.managerDir, lastSynced := synced1,
             shellId := sid, tickCount := tc }, cdW)
      else
        ({ managerDir := s.managerDir, lastSynced := synced1,
           shellId := sid, tickCount := tc }, cdW)
    | none =>
      ({ managerDir := s.managerDir, lastSynced := synced1,
         shellId := 0, tickCount := tc }, cdW)
  else
    ({ managerDir := s.managerDir, lastSynced := synced1,
       shellId := sid, tickCount := tc }, cdW)

/-- A sequence of ticks; collects the `cd` commands written. -/
def tickRun {P : Type} [DecidableEq P] (es : List (TickEnv P))
    (s : SyncState P) : SyncState P × List (Option P) :=
  match es with
  | [] => (s, [])
  | e :: rest =>
    ((tickRun rest (tick e s).1).1,
     (tick e s).2 :: (tickRun rest (tick e s).1).2)

/-- An environment reports only self-resolving shell directories:
`/proc` cwd links are absolute canonical paths, so joining them onto
any current directory and canonicalizing gives them back. -/
def selfResolving {P : Type} (e : TickEnv P) : Prop :=
  ∀ pid cur t, e.shellCwd pid = some t → resolvePath e.os cur t = t

theorem navigate_to_cases {P : Type} (os : OSModel P) (m : FSManager P)
    (path : P) :
    (os.is_dir (resolvePath os m.current_dir path) = true ∧
      navigate_to os m path
        = (Except.ok (), ⟨resolvePath os m.current_dir path⟩)) ∨
    (os.is_dir (resolvePath os m.current_dir path) = false ∧
      navigate_to os m path
        = (Except.error IOErrorKind.NotADirectory, m)) := by
  unfold navigate_to resolvePath
  by_cases h : os.is_dir ((os.canonicalize (os.join m.current_dir path)).getD
      (os.join m.current_dir path)) = true
  · exact Or.inl ⟨h, by rw [if_pos h]⟩
  · refine Or.inr ⟨by simpa using h, by rw [if_neg h]⟩

theorem tick_no_echo {P : Type} [DecidableEq P] (e : TickEnv P)
    (s : SyncState P) (hres : selfResolving e)
    (hinv : s.managerDir = s.lastSynced) :
    (tick e s).2 = none ∧
    (tick e s).1.managerDir = (tick e s).1.lastSynced := by
  have hcd : tickCd s = (none, s.lastSynced) := by
    unfold tickCd
    rw [if_neg (by simp [hinv])]
  unfold tick
  rw [hcd]
  dsimp only
  by_cases hcond : tickShellId e s (s.tickCount + 1) > 0 ∧
      (s.tickCount + 1) % 5 = 0
  · rw [if_pos hcond]
    cases hcw : e.shellCwd (tickShellId e s (s.tickCount + 1)) with
    | none => exact ⟨rfl, hinv⟩
    | some target =>
      dsimp only
      by_cases ht : target ≠ s.managerDir
      · rw [if_pos ht]
        rcases navigate_to_cases e.os ⟨s.managerDir⟩ target with
          ⟨hdir, hnav⟩ | ⟨hdir, hnav⟩
        · rw [hnav]
          exact ⟨rfl, hres _ s.managerDir target hcw⟩
        · rw [hnav]
          exact ⟨rfl, hinv⟩
      · rw [if_neg ht]
        exact ⟨rfl, hinv⟩
  · rw [if_neg hcond]
    exact ⟨rfl, hinv⟩

theorem tickRun_no_echo {P : Type} [DecidableEq P]
    (es : List (TickEnv P)) (s : SyncState P)
    (hres : ∀ e2 ∈ es, selfResolving e2)
    (hinv : s.managerDir = s.lastSynced) :
    ∀ cd ∈ (tickRun es s).2, cd = none := by
  induction es generalizing s with
  | nil => intro cd h; cases h
  | cons e rest ih =>
    intro cd hcd
    have hstep := tick_no_echo e s (hres e (List.mem_cons_self e rest)) hinv
    unfold tickRun at hcd
    rcases List.mem_cons.mp hcd with rfl | h'
    · exact hstep.1
    · exact ih (tick e s).1
        (fun e2 he2 => hres e2 (List.mem_cons_of_mem e he2)) hstep.2 cd h'

/-- C6: when the shell→GUI sync navigates the Directory Model to the
shell's reported working directory, the last-synced path is set to that
directory in the same tick; from then on, as long as only ticks run
(and the shell keeps reporting canonical absolute directories), no tick
ever writes a `cd` command back to the shell — the navigate-echo loop
cannot occur. -/
theorem xplore_c6_no_navigate_echo {P : Type} [DecidableEq P]
    (e : TickEnv P) (s : SyncState P) (target : P)
    (hres : selfResolving e)
    (htc : (s.tickCount + 1) % 5 = 0)
    (hid : s.shellId > 0)
    (hcwd : e.shellCwd s.shellId = some target)
    (hneq : target ≠ s.managerDir)
    (hdir : e.os.is_dir target = true) :
    (tick e s).1.managerDir = target ∧
    (tick e s).1.lastSynced = target ∧
    (∀ es : List (TickEnv P), (∀ e2 ∈ es, selfResolving e2) →
      ∀ cd ∈ (tickRun es (tick e s).1).2, cd = none) := by
  have hsid : tickShellId e s (s.tickCount + 1) = s.shellId := by
    unfold tickShellId
    rw [if_neg (by omega)]
  have hrt : resolvePath e.os s.managerDir target = target :=
    hres s.shellId s.managerDir target hcwd
  have hstate : (tick e s).1.managerDir = target ∧
      (tick e s).1.lastSynced = target := by
    unfold tick
    dsimp only
    rw [hsid, if_pos ⟨hid, htc⟩, hcwd]
    dsimp only
    rw [if_pos hneq]
    rcases navigate_to_cases e.os ⟨s.managerDir⟩ target with
      ⟨_, hnav⟩ | ⟨hdir', _⟩
    · rw [hnav]
      exact ⟨hrt, rfl⟩
    · rw [hrt] at hdir'
      rw [hdir] at hdir'
      cases hdir'
  refine ⟨hstate.1, hstate.2, ?_⟩
  intro es hres2 cd hcd
  exact tickRun_no_echo es (tick e s).1 hres2
    (hstate.1.trans hstate.2.symm) cd hcd

/-- Concrete oracle for the C6 witness: shell cwd links are absolute
canonical paths, every path is a directory. -/
def c6os : OSModel String :=
  { join := fun _ b => b
    canonicalize := fun p => some p
    is_dir := fun _ => true
    fileName := fun _ => none
    joinName := fun a b => a ++ "/" ++ b }

def c6env : TickEnv String :=
  { os := c6os, findShell := none, shellCwd := fun _ => some "/tmp/sub" }

def c6state : SyncState String :=
  { managerDir := "/tmp", lastSynced := "/tmp", shellId := 7,
    tickCount := 4 }

theorem xplore_c6_witness :
    (tick c6env c6state).1.managerDir = "/tmp/sub" ∧
    (tick c6env c6state).1.lastSynced = "/tmp/sub" ∧
    (tick c6env (tick c6env c6state).1).2 = none := by
  have h := xplore_c6_no_navigate_echo c6env c6state "/tmp/sub"
    (fun _ _ _ _ => rfl) (by decide) (by decide) rfl (by decide) rfl
  refine ⟨h.1, h.2.1, ?_⟩
  exact h.2.2 [c6env]
    (fun e2 he2 => by
      rcases List.mem_singleton.mp he2 with rfl
      exact fun _ _ _ _ => rfl)
    _ (List.mem_cons_self _ _)
